import Mathlib

/-!
Verification of the filter-and-aggregate pipeline of the salary dashboard
(`app.py`).  The tabular dataset is embedded as a list of records, one per
CSV row, with the columns the pipeline reads: `ano`, `senioridade`,
`contrato`, `tamanho_empresa`, `cargo`, `remoto`, `residencia_iso3`, `usd`.
Salaries are modelled as exact rationals.  Pandas operations are embedded
as list functions: boolean-mask filtering (`isin` conjunctions) as
`List.filter`, `mean`/`max` as sum-divided-by-length and list maximum,
`mode` as the ascending-sorted list of maximal-frequency values,
`groupby(...).mean()` as a map over the sorted distinct keys,
`value_counts` as per-distinct-value counting sorted descending, and
`nlargest(n)` followed by `sort_values()` as a stable descending sort,
`take n`, then an ascending sort.
-/

/-- One row of the dataset: the columns read by the dashboard. -/
structure Record where
  ano : Int
  senioridade : String
  contrato : String
  tamanho_empresa : String
  cargo : String
  remoto : String
  residencia_iso3 : String
  usd : ℚ
deriving DecidableEq, Repr

/-- The four sidebar multiselect values: allowed values per filterable
column (`anos`, `senioridades`, `contratos`, `tamanhos` in the source). -/
structure FilterSpec where
  anos : List Int
  senioridades : List String
  contratos : List String
  tamanhos : List String
deriving DecidableEq, Repr

/-- The boolean mask of the source filtering step: a row passes when each
of its four filterable columns is in the corresponding selected list. -/
def passesFilters (s : FilterSpec) (r : Record) : Bool :=
  s.anos.contains r.ano && s.senioridades.contains r.senioridade &&
    s.contratos.contains r.contrato && s.tamanhos.contains r.tamanho_empresa

/-- `df_filtrado`: the filtered view, i.e. the rows of `df` passing the
conjunction of the four `isin` masks (app.py lines 117-122). -/
def df_filtrado (df : List Record) (s : FilterSpec) : List Record :=
  df.filter (passesFilters s)

/-- Maximum of a list with a default for the empty list (pandas `max` is
only used on non-empty data, so the default never matters there). -/
def listMax {α : Type} [LinearOrder α] (d : α) : List α → α
  | [] => d
  | x :: xs => xs.foldl max x

/-- `salario_medio`: arithmetic mean of the `usd` column (app.py line 147). -/
def salario_medio (v : List Record) : ℚ :=
  (v.map Record.usd).sum / (v.length : ℚ)

/-- `salario_maximo`: maximum of the `usd` column (app.py line 148). -/
def salario_maximo (v : List Record) : ℚ :=
  listMax 0 (v.map Record.usd)

/-- `total_registros`: number of rows of the filtered view (app.py line 149). -/
def total_registros (v : List Record) : Nat :=
  v.length

/-- Pandas `Series.mode`: the values of maximal frequency, sorted
ascending (pandas returns the modes in sorted order). -/
def seriesMode (vals : List String) : List String :=
  let distinct := vals.dedup
  let m := listMax 0 (distinct.map fun c => vals.count c)
  (distinct.filter fun c => vals.count c == m).insertionSort (· ≤ ·)

/-- `cargo_mais_frequente`: first element of the mode of the `cargo`
column, or the sentinel "-" when the mode is empty (app.py lines 150-154). -/
def cargo_mais_frequente (v : List Record) : String :=
  match seriesMode (v.map Record.cargo) with
  | [] => "-"
  | c :: _ => c

/-- `dispersao`: difference between maximum and mean salary shown in the
insights panel (app.py line 190). -/
def dispersao (v : List Record) : ℚ :=
  salario_maximo v - salario_medio v

section ListMaxLemmas

variable {α : Type} [LinearOrder α]

theorem le_foldl_max (x : α) (l : List α) : x ≤ l.foldl max x := by
  induction l generalizing x with
  | nil => exact le_refl x
  | cons y ys ih => exact le_trans (le_max_left x y) (ih (max x y))

theorem mem_le_foldl_max {a : α} {l : List α} (x : α) (h : a ∈ l) :
    a ≤ l.foldl max x := by
  induction l generalizing x with
  | nil => cases h
  | cons y ys ih =>
    rcases List.mem_cons.mp h with rfl | hy
    · exact le_trans (le_max_right x a) (le_foldl_max _ _)
    · exact ih _ hy

theorem foldl_max_mem (x : α) (l : List α) :
    l.foldl max x = x ∨ l.foldl max x ∈ l := by
  induction l generalizing x with
  | nil => exact Or.inl rfl
  | cons y ys ih =>
    rcases ih (max x y) with h | h
    · rcases max_choice x y with hx | hy
      · exact Or.inl (by rw [List.foldl_cons, h, hx])
      · exact Or.inr (by rw [List.foldl_cons, h, hy]; exact List.mem_cons_self _ _)
    · exact Or.inr (List.mem_cons_of_mem _ h)

theorem listMax_mem {l : List α} (d : α) (h : l ≠ []) : listMax d l ∈ l := by
  cases l with
  | nil => exact absurd rfl h
  | cons x xs =>
    show xs.foldl max x ∈ x :: xs
    rcases foldl_max_mem x xs with hx | hx
    · rw [hx]; exact List.mem_cons_self _ _
    · exact List.mem_cons_of_mem _ hx

theorem le_listMax {a : α} {l : List α} (d : α) (h : a ∈ l) : a ≤ listMax d l := by
  cases l with
  | nil => cases h
  | cons x xs =>
    rcases List.mem_cons.mp h with rfl | hx
    · exact le_foldl_max _ _
    · exact mem_le_foldl_max _ hx

end ListMaxLemmas

/-- Prop-level statement that a record satisfies all four filters. -/
def SatisfiesFilters (s : FilterSpec) (r : Record) : Prop :=
  r.ano ∈ s.anos ∧ r.senioridade ∈ s.senioridades ∧
    r.contrato ∈ s.contratos ∧ r.tamanho_empresa ∈ s.tamanhos

instance (s : FilterSpec) (r : Record) : Decidable (SatisfiesFilters s r) := by
  unfold SatisfiesFilters; infer_instance

theorem passesFilters_iff (s : FilterSpec) (r : Record) :
    passesFilters s r = true ↔ SatisfiesFilters s r := by
  simp [passesFilters, SatisfiesFilters, and_assoc]

/-- C1: the filtered view is exactly the subsequence of the dataset whose
records pass all four membership tests: it is a sublist of `df` (original
order preserved, no mutation of `df`), membership in it is membership in
`df` plus satisfying the filters, and each record keeps its exact
multiplicity when it satisfies the filters and is dropped otherwise. -/
theorem df_filtrado_is_filtered_subsequence (df : List Record) (s : FilterSpec) :
    (df_filtrado df s).Sublist df ∧
      (∀ r : Record, r ∈ df_filtrado df s ↔ r ∈ df ∧ SatisfiesFilters s r) ∧
      (∀ r : Record, (df_filtrado df s).count r =
        if SatisfiesFilters s r then df.count r else 0) := by
  refine ⟨List.filter_sublist df, ?_, ?_⟩
  · intro r
    simp only [df_filtrado, List.mem_filter, passesFilters_iff]
  · intro r
    by_cases h : SatisfiesFilters s r
    · rw [if_pos h, df_filtrado]
      exact List.count_filter ((passesFilters_iff s r).mpr h)
    · rw [if_neg h, df_filtrado, List.count_eq_zero]
      intro hr
      exact h ((passesFilters_iff s r).mp (List.mem_filter.mp hr).2)

/-- C4: if any one of the four selected-value sets is empty, the filtered
view is empty. -/
theorem df_filtrado_empty_of_empty_filter (df : List Record) (s : FilterSpec)
    (h : s.anos = [] ∨ s.senioridades = [] ∨ s.contratos = [] ∨ s.tamanhos = []) :
    df_filtrado df s = [] := by
  rw [df_filtrado, List.filter_eq_nil_iff]
  intro r _
  simp only [passesFilters_iff]
  intro hs
  rcases hs with ⟨h1, h2, h3, h4⟩
  rcases h with he | he | he | he <;>
    simp [he] at h1 h2 h3 h4

/-- C4 witness at a concrete dataset and filter spec. -/
theorem df_filtrado_empty_of_empty_filter_witness :
    df_filtrado [⟨2024, "senior", "CLT", "M", "A", "remoto", "BRA", 100⟩]
        ⟨[2024], [], ["CLT"], ["M"]⟩ = [] :=
  df_filtrado_empty_of_empty_filter _ _ (Or.inr (Or.inl rfl))

/-- C9: the pipeline is pure and idempotent: filtering an already filtered
view by the same spec changes nothing, so re-running the transform on a
filter change recomputes the same view from the unchanged dataset. -/
theorem df_filtrado_idempotent (df : List Record) (s : FilterSpec) :
    df_filtrado (df_filtrado df s) s = df_filtrado df s := by
  apply List.filter_eq_self.mpr
  intro r hr
  exact (List.mem_filter.mp hr).2

section SeriesModeLemmas

theorem seriesMode_ne_nil {vals : List String} (h : vals ≠ []) :
    seriesMode vals ≠ [] := by
  have hd : vals.dedup ≠ [] := by
    simpa [List.dedup_eq_nil] using h
  have hm := listMax_mem 0 (l := vals.dedup.map fun c => vals.count c)
    (by simpa using hd)
  rcases List.mem_map.mp hm with ⟨c0, hc0, hcnt⟩
  have hfil : c0 ∈ vals.dedup.filter fun c => vals.count c ==
      listMax 0 (vals.dedup.map fun c => vals.count c) := by
    refine List.mem_filter.mpr ⟨hc0, ?_⟩
    simpa using hcnt
  intro hnil
  rw [seriesMode] at hnil
  have := (List.mem_insertionSort (· ≤ ·)).mpr hfil
  rw [hnil] at this
  cases this

theorem mem_seriesMode_spec {vals : List String} {c : String}
    (h : c ∈ seriesMode vals) :
    c ∈ vals ∧ ∀ c' : String, vals.count c' ≤ vals.count c := by
  rw [seriesMode] at h
  have hf := (List.mem_insertionSort (· ≤ ·)).mp h
  have hc := (List.mem_filter.mp hf).1
  have hcnt : vals.count c = listMax 0 (vals.dedup.map fun x => vals.count x) := by
    simpa using (List.mem_filter.mp hf).2
  refine ⟨List.mem_dedup.mp hc, ?_⟩
  intro c'
  by_cases hc' : c' ∈ vals
  · have : vals.count c' ∈ vals.dedup.map fun x => vals.count x :=
      List.mem_map.mpr ⟨c', List.mem_dedup.mpr hc', rfl⟩
    rw [hcnt]
    exact le_listMax 0 this
  · rw [List.count_eq_zero.mpr hc']
    exact Nat.zero_le _

theorem cargo_mais_frequente_spec {v : List Record} (h : v ≠ []) :
    cargo_mais_frequente v ∈ v.map Record.cargo ∧
      ∀ c : String, (v.map Record.cargo).count c ≤
        (v.map Record.cargo).count (cargo_mais_frequente v) := by
  have hv : v.map Record.cargo ≠ [] := by simpa using h
  rcases hm : seriesMode (v.map Record.cargo) with _ | ⟨c, rest⟩
  · exact absurd hm (seriesMode_ne_nil hv)
  · have hc : cargo_mais_frequente v = c := by
      rw [cargo_mais_frequente, hm]
    rw [hc]
    exact mem_seriesMode_spec (by rw [hm]; exact List.mem_cons_self c rest)

end SeriesModeLemmas

/-- Sample records used to instantiate theorems with hypotheses. -/
def rA : Record := ⟨2024, "senior", "CLT", "M", "Data Scientist", "remoto", "BRA", 100⟩

def rB : Record := ⟨2023, "junior", "PJ", "G", "Analista", "hibrido", "USA", 50⟩

/-- C2: over a non-empty view the KPI block computes the arithmetic mean
of `usd` (stated multiplicatively: mean times cardinality is the sum), the
maximum of `usd` (an attained upper bound), the record count, and a role of
maximal frequency; on an empty view the role KPI falls back to "-". -/
theorem compute_kpis_spec (v : List Record) (h : v ≠ []) :
    salario_medio v * (v.length : ℚ) = (v.map Record.usd).sum ∧
      salario_maximo v ∈ v.map Record.usd ∧
      (∀ r ∈ v, r.usd ≤ salario_maximo v) ∧
      total_registros v = v.length ∧
      cargo_mais_frequente v ∈ v.map Record.cargo ∧
      (∀ c : String, (v.map Record.cargo).count c ≤
        (v.map Record.cargo).count (cargo_mais_frequente v)) ∧
      cargo_mais_frequente [] = "-" := by
  have hlen : (v.length : ℚ) ≠ 0 := by
    exact_mod_cast fun hz => h (List.length_eq_zero.mp hz)
  have hmap : v.map Record.usd ≠ [] := by simpa using h
  refine ⟨div_mul_cancel₀ _ hlen, listMax_mem 0 hmap, ?_, rfl,
    (cargo_mais_frequente_spec h).1, (cargo_mais_frequente_spec h).2, rfl⟩
  intro r hr
  exact le_listMax 0 (List.mem_map.mpr ⟨r, hr, rfl⟩)

/-- C2 witness at the concrete one-record view `[rA]`. -/
theorem compute_kpis_spec_witness :
    ([rA] : List Record) ≠ [] ∧
      (salario_medio [rA] * (([rA] : List Record).length : ℚ) =
          (([rA] : List Record).map Record.usd).sum ∧
        salario_maximo [rA] ∈ ([rA] : List Record).map Record.usd ∧
        (∀ r ∈ ([rA] : List Record), r.usd ≤ salario_maximo [rA]) ∧
        total_registros [rA] = ([rA] : List Record).length ∧
        cargo_mais_frequente [rA] ∈ ([rA] : List Record).map Record.cargo ∧
        (∀ c : String, (([rA] : List Record).map Record.cargo).count c ≤
          (([rA] : List Record).map Record.cargo).count (cargo_mais_frequente [rA])) ∧
        cargo_mais_frequente [] = "-") :=
  ⟨by simp, compute_kpis_spec [rA] (by simp)⟩

/-- C10: over a non-empty view the displayed dispersion, maximum salary
minus mean salary, is non-negative. -/
theorem dispersao_nonneg (v : List Record) (h : v ≠ []) :
    0 ≤ dispersao v := by
  rw [dispersao, sub_nonneg, salario_medio]
  have hlen : (0 : ℚ) < (v.length : ℚ) := by
    have : 0 < v.length := List.length_pos.mpr h
    exact_mod_cast this
  rw [div_le_iff₀ hlen]
  have hb : ∀ x ∈ v.map Record.usd, x ≤ salario_maximo v := by
    intro x hx
    exact le_listMax 0 hx
  have := List.sum_le_card_nsmul (v.map Record.usd) (salario_maximo v) hb
  simpa [mul_comm, List.length_map] using this

/-- C10 witness at the concrete view `[rA, rB]`. -/
theorem dispersao_nonneg_witness :
    ([rA, rB] : List Record) ≠ [] ∧ 0 ≤ dispersao [rA, rB] :=
  ⟨by simp, dispersao_nonneg [rA, rB] (by simp)⟩

/-- C3: when every selected-value list contains the full distinct-value
set of its column, the filtered view is the dataset itself, and its record
count is the dataset's total record count. -/
theorem df_filtrado_full_selection_identity (df : List Record) (s : FilterSpec)
    (h1 : ∀ y ∈ (df.map Record.ano).dedup, y ∈ s.anos)
    (h2 : ∀ y ∈ (df.map Record.senioridade).dedup, y ∈ s.senioridades)
    (h3 : ∀ y ∈ (df.map Record.contrato).dedup, y ∈ s.contratos)
    (h4 : ∀ y ∈ (df.map Record.tamanho_empresa).dedup, y ∈ s.tamanhos) :
    df_filtrado df s = df ∧ total_registros (df_filtrado df s) = df.length := by
  have hid : df_filtrado df s = df := by
    rw [df_filtrado]
    apply List.filter_eq_self.mpr
    intro r hr
    refine (passesFilters_iff s r).mpr
      ⟨h1 _ ?_, h2 _ ?_, h3 _ ?_, h4 _ ?_⟩ <;>
      exact List.mem_dedup.mpr (List.mem_map.mpr ⟨r, hr, rfl⟩)
  exact ⟨hid, by rw [hid, total_registros]⟩

/-- C3 witness at a concrete dataset whose filter lists are exactly the
distinct column values. -/
theorem df_filtrado_full_selection_identity_witness :
    (∀ y ∈ (([rA, rB] : List Record).map Record.ano).dedup, y ∈ [2024, 2023]) ∧
      (∀ y ∈ (([rA, rB] : List Record).map Record.senioridade).dedup,
        y ∈ ["senior", "junior"]) ∧
      (∀ y ∈ (([rA, rB] : List Record).map Record.contrato).dedup, y ∈ ["CLT", "PJ"]) ∧
      (∀ y ∈ (([rA, rB] : List Record).map Record.tamanho_empresa).dedup, y ∈ ["M", "G"]) ∧
      (df_filtrado [rA, rB] ⟨[2024, 2023], ["senior", "junior"], ["CLT", "PJ"], ["M", "G"]⟩ =
          [rA, rB] ∧
        total_registros (df_filtrado [rA, rB]
          ⟨[2024, 2023], ["senior", "junior"], ["CLT", "PJ"], ["M", "G"]⟩) =
          ([rA, rB] : List Record).length) :=
  ⟨by decide, by decide, by decide, by decide,
    df_filtrado_full_selection_identity [rA, rB] _
      (by decide) (by decide) (by decide) (by decide)⟩

/-- C7: widening every selected-value list can only increase the maximum
salary KPI: with both filtered views non-empty, the wider view's
`salario_maximo` dominates the narrower one's. -/
theorem salario_maximo_monotone_widening (df : List Record) (s1 s2 : FilterSpec)
    (ha : ∀ y ∈ s1.anos, y ∈ s2.anos)
    (hs : ∀ y ∈ s1.senioridades, y ∈ s2.senioridades)
    (hc : ∀ y ∈ s1.contratos, y ∈ s2.contratos)
    (ht : ∀ y ∈ s1.tamanhos, y ∈ s2.tamanhos)
    (h1 : df_filtrado df s1 ≠ []) (h2 : df_filtrado df s2 ≠ []) :
    salario_maximo (df_filtrado df s1) ≤ salario_maximo (df_filtrado df s2) := by
  have hmap : (df_filtrado df s1).map Record.usd ≠ [] := by simpa using h1
  have hmem := listMax_mem 0 hmap
  rcases List.mem_map.mp hmem with ⟨r, hr, hru⟩
  have hr1 := List.mem_filter.mp hr
  have hpass : passesFilters s2 r = true := by
    rcases (passesFilters_iff s1 r).mp hr1.2 with ⟨p1, p2, p3, p4⟩
    exact (passesFilters_iff s2 r).mpr ⟨ha _ p1, hs _ p2, hc _ p3, ht _ p4⟩
  have hr2 : r ∈ df_filtrado df s2 := List.mem_filter.mpr ⟨hr1.1, hpass⟩
  calc salario_maximo (df_filtrado df s1) = r.usd := hru.symm
    _ ≤ salario_maximo (df_filtrado df s2) :=
      le_listMax 0 (List.mem_map.mpr ⟨r, hr2, rfl⟩)

/-- C7 witness: a one-year narrow filter against its two-year widening. -/
theorem salario_maximo_monotone_widening_witness :
    (∀ y ∈ [(2023 : Int)], y ∈ [2024, 2023]) ∧
      (∀ y ∈ ["junior"], y ∈ ["senior", "junior"]) ∧
      (∀ y ∈ ["PJ"], y ∈ ["CLT", "PJ"]) ∧
      (∀ y ∈ ["G"], y ∈ ["M", "G"]) ∧
      df_filtrado [rA, rB] ⟨[2023], ["junior"], ["PJ"], ["G"]⟩ ≠ [] ∧
      df_filtrado [rA, rB] ⟨[2024, 2023], ["senior", "junior"], ["CLT", "PJ"], ["M", "G"]⟩ ≠ [] ∧
      salario_maximo (df_filtrado [rA, rB] ⟨[2023], ["junior"], ["PJ"], ["G"]⟩) ≤
        salario_maximo (df_filtrado [rA, rB]
          ⟨[2024, 2023], ["senior", "junior"], ["CLT", "PJ"], ["M", "G"]⟩) :=
  ⟨by decide, by decide, by decide, by decide, by decide, by decide,
    salario_maximo_monotone_widening [rA, rB] _ _
      (by decide) (by decide) (by decide) (by decide) (by decide) (by decide)⟩

/-- Ascending comparison of grouped rows by their mean value. -/
def leMean (a b : String × ℚ) : Prop := a.2 ≤ b.2

/-- Descending comparison of grouped rows by their mean value. -/
def geMean (a b : String × ℚ) : Prop := b.2 ≤ a.2

/-- Descending comparison of tallied rows by their count. -/
def geCount (a b : String × Nat) : Prop := b.2 ≤ a.2

instance : DecidableRel leMean := fun a b => inferInstanceAs (Decidable (a.2 ≤ b.2))

instance : DecidableRel geMean := fun a b => inferInstanceAs (Decidable (b.2 ≤ a.2))

instance : DecidableRel geCount := fun a b => inferInstanceAs (Decidable (b.2 ≤ a.2))

instance : IsTotal (String × ℚ) leMean := ⟨fun a b => le_total a.2 b.2⟩

instance : IsTrans (String × ℚ) leMean := ⟨fun _ _ _ hab hbc => le_trans hab hbc⟩

instance : IsTotal (String × ℚ) geMean := ⟨fun a b => le_total b.2 a.2⟩

instance : IsTrans (String × ℚ) geMean := ⟨fun _ _ _ hab hbc => le_trans hbc hab⟩

instance : IsTotal (String × Nat) geCount := ⟨fun a b => le_total b.2 a.2⟩

instance : IsTrans (String × Nat) geCount := ⟨fun _ _ _ hab hbc => le_trans hbc hab⟩

/-- Pandas `groupby(key)[...].mean()`: one row per distinct key (groupby
sorts the keys ascending), carrying the mean `usd` of that key's group. -/
def groupMeanBy (key : Record → String) (v : List Record) : List (String × ℚ) :=
  ((v.map key).dedup.insertionSort (· ≤ ·)).map
    fun k => (k, salario_medio (v.filter fun r => key r == k))

/-- `top_cargos`: group by `cargo`, mean `usd` per group, keep the `n`
largest means (`nlargest`, stable descending sort then truncation), then
sort ascending by mean (`sort_values`) (app.py lines 171-177). -/
def top_cargos (v : List Record) (n : Nat) : List (String × ℚ) :=
  (((groupMeanBy Record.cargo v).insertionSort geMean).take n).insertionSort leMean

/-- `remoto`: `value_counts` of the `remoto` column — one row per distinct
value with its number of occurrences, sorted descending by count
(app.py lines 235-240). -/
def remoto (v : List Record) : List (String × Nat) :=
  ((v.map Record.remoto).dedup.map
    fun t => (t, (v.map Record.remoto).count t)).insertionSort geCount

/-- `df_ds`: the rows of the filtered view whose `cargo` is exactly
"Data Scientist" (app.py line 253). -/
def df_ds (v : List Record) : List Record :=
  v.filter fun r => r.cargo == "Data Scientist"

/-- `media_pais`: mean `usd` per `residencia_iso3` over the Data Scientist
rows, or `none` when there is no such row — the source then shows the
informational "Sem registros" message instead of a chart
(app.py lines 253-268). -/
def media_pais (v : List Record) : Option (List (String × ℚ)) :=
  if df_ds v = [] then none
  else some (groupMeanBy Record.residencia_iso3 (df_ds v))

theorem mem_groupMeanBy {key : Record → String} {v : List Record}
    {p : String × ℚ} (h : p ∈ groupMeanBy key v) :
    p.1 ∈ v.map key ∧ p.2 = salario_medio (v.filter fun r => key r == p.1) := by
  rw [groupMeanBy] at h
  rcases List.mem_map.mp h with ⟨k, hk, rfl⟩
  exact ⟨List.mem_dedup.mp ((List.mem_insertionSort (· ≤ ·)).mp hk), rfl⟩

theorem groupMeanBy_covers {key : Record → String} {v : List Record}
    {r : Record} (h : r ∈ v) :
    ∃ p ∈ groupMeanBy key v, p.1 = key r := by
  refine ⟨(key r, salario_medio (v.filter fun x => key x == key r)), ?_, rfl⟩
  rw [groupMeanBy]
  refine List.mem_map.mpr ⟨key r, ?_, rfl⟩
  exact (List.mem_insertionSort (· ≤ ·)).mpr
    (List.mem_dedup.mpr (List.mem_map.mpr ⟨r, h, rfl⟩))

/-- C5: over a non-empty view, `top_cargos` with n = 10 returns at most 10
entries, each an actual role group carrying the mean `usd` of that group,
sorted ascending by mean (largest last), and every group left out has a
mean no larger than every mean kept. -/
theorem top_cargos_spec (v : List Record) (h : v ≠ []) :
    (top_cargos v 10).length ≤ 10 ∧
      (top_cargos v 10).Pairwise (fun a b : String × ℚ => a.2 ≤ b.2) ∧
      (∀ p ∈ top_cargos v 10, p ∈ groupMeanBy Record.cargo v) ∧
      (∀ p ∈ top_cargos v 10, p.1 ∈ v.map Record.cargo ∧
        p.2 = salario_medio (v.filter fun r => r.cargo == p.1)) ∧
      (∀ q ∈ groupMeanBy Record.cargo v, q ∉ top_cargos v 10 →
        ∀ p ∈ top_cargos v 10, q.2 ≤ p.2) := by
  have hmem3 : ∀ p ∈ top_cargos v 10, p ∈ groupMeanBy Record.cargo v := by
    intro p hp
    have hp1 := (List.mem_insertionSort leMean).mp hp
    exact (List.mem_insertionSort geMean).mp (List.mem_of_mem_take hp1)
  refine ⟨?_, ?_, hmem3, ?_, ?_⟩
  · rw [top_cargos, List.length_insertionSort]
    exact List.length_take_le 10 _
  · exact List.sorted_insertionSort leMean _
  · intro p hp
    exact (mem_groupMeanBy (hmem3 p hp))
  · intro q hqG hqnot p hp
    have hpT : p ∈ ((groupMeanBy Record.cargo v).insertionSort geMean).take 10 :=
      (List.mem_insertionSort leMean).mp hp
    have hqD : q ∈ (groupMeanBy Record.cargo v).insertionSort geMean :=
      (List.mem_insertionSort geMean).mpr hqG
    have hqnotT : q ∉ ((groupMeanBy Record.cargo v).insertionSort geMean).take 10 :=
      fun hq => hqnot ((List.mem_insertionSort leMean).mpr hq)
    have hpair : ((groupMeanBy Record.cargo v).insertionSort geMean).Pairwise geMean :=
      List.sorted_insertionSort geMean _
    rw [← List.take_append_drop 10
      ((groupMeanBy Record.cargo v).insertionSort geMean)] at hqD hpair
    have hdrop : q ∈ ((groupMeanBy Record.cargo v).insertionSort geMean).drop 10 := by
      rcases List.mem_append.mp hqD with h' | h'
      · exact absurd h' hqnotT
      · exact h'
    exact (List.pairwise_append.mp hpair).2.2 p hpT q hdrop

/-- C5 witness at the concrete one-record view `[rA]`. -/
theorem top_cargos_spec_witness :
    ([rA] : List Record) ≠ [] ∧
      ((top_cargos [rA] 10).length ≤ 10 ∧
        (top_cargos [rA] 10).Pairwise (fun a b : String × ℚ => a.2 ≤ b.2) ∧
        (∀ p ∈ top_cargos [rA] 10, p ∈ groupMeanBy Record.cargo [rA]) ∧
        (∀ p ∈ top_cargos [rA] 10, p.1 ∈ ([rA] : List Record).map Record.cargo ∧
          p.2 = salario_medio (([rA] : List Record).filter fun r => r.cargo == p.1)) ∧
        (∀ q ∈ groupMeanBy Record.cargo [rA], q ∉ top_cargos [rA] 10 →
          ∀ p ∈ top_cargos [rA] 10, q.2 ≤ p.2)) :=
  ⟨by simp, top_cargos_spec [rA] (by simp)⟩

/-- C8: `remoto` tallies the view's `remoto` column: each returned row
pairs a value occurring in the column with its exact number of
occurrences, distinct values appear exactly once each and all of them
appear, and the rows are sorted descending by count. -/
theorem remoto_distribution_spec (v : List Record) :
    (∀ p ∈ remoto v, p.1 ∈ v.map Record.remoto ∧
        p.2 = (v.map Record.remoto).count p.1) ∧
      ((remoto v).map Prod.fst).Nodup ∧
      (∀ t ∈ v.map Record.remoto, ∃ p ∈ remoto v, p.1 = t) ∧
      (remoto v).Pairwise (fun a b : String × Nat => b.2 ≤ a.2) := by
  refine ⟨?_, ?_, ?_, ?_⟩
  · intro p hp
    have hp1 := (List.mem_insertionSort geCount).mp hp
    rcases List.mem_map.mp hp1 with ⟨t, ht, rfl⟩
    exact ⟨List.mem_dedup.mp ht, rfl⟩
  · have hperm : List.Perm ((remoto v).map Prod.fst)
        (((v.map Record.remoto).dedup.map
          fun t => (t, (v.map Record.remoto).count t)).map Prod.fst) :=
      (List.perm_insertionSort geCount _).map Prod.fst
    have hnd : (((v.map Record.remoto).dedup.map
        fun t => (t, (v.map Record.remoto).count t)).map Prod.fst).Nodup := by
      rw [List.map_map]
      have hcomp : (Prod.fst ∘ fun t : String => (t, (v.map Record.remoto).count t)) =
          fun t : String => t := rfl
      rw [hcomp, List.map_id']
      exact (v.map Record.remoto).nodup_dedup
    exact hperm.nodup_iff.mpr hnd
  · intro t ht
    refine ⟨(t, (v.map Record.remoto).count t), ?_, rfl⟩
    exact (List.mem_insertionSort geCount).mpr
      (List.mem_map.mpr ⟨t, List.mem_dedup.mpr ht, rfl⟩)
  · exact List.sorted_insertionSort geCount _

/-- C6: `media_pais` restricts the view to rows whose `cargo` is
"Data Scientist"; when that restriction is empty it signals `none` (the
source shows the informational message and computes no aggregate), and
otherwise it returns one row per country of the restriction, carrying the
mean `usd` of the Data Scientist rows of that country. -/
theorem media_pais_spec (v : List Record) (hds : df_ds v ≠ []) :
    (∀ r : Record, r ∈ df_ds v ↔ r ∈ v ∧ r.cargo = "Data Scientist") ∧
      (∀ w : List Record, df_ds w = [] → media_pais w = none) ∧
      ∃ l, media_pais v = some l ∧
        (∀ p ∈ l, p.1 ∈ (df_ds v).map Record.residencia_iso3 ∧
          p.2 = salario_medio (v.filter fun r =>
            r.cargo == "Data Scientist" && r.residencia_iso3 == p.1)) ∧
        (∀ r ∈ df_ds v, ∃ p ∈ l, p.1 = r.residencia_iso3) := by
  refine ⟨?_, ?_, groupMeanBy Record.residencia_iso3 (df_ds v), ?_, ?_, ?_⟩
  · intro r
    simp [df_ds, List.mem_filter]
  · intro w hw
    rw [media_pais, if_pos hw]
  · rw [media_pais, if_neg hds]
  · intro p hp
    rcases mem_groupMeanBy hp with ⟨hmem, hmean⟩
    refine ⟨hmem, hmean.trans ?_⟩
    rw [df_ds, List.filter_filter]
    congr 1
    apply List.filter_congr
    intro r _
    exact Bool.and_comm _ _
  · intro r hr
    exact groupMeanBy_covers hr

/-- C6 witness at the concrete one-record view `[rA]`, whose single record
is a Data Scientist. -/
theorem media_pais_spec_witness :
    df_ds [rA] ≠ [] ∧
      ((∀ r : Record, r ∈ df_ds [rA] ↔ r ∈ ([rA] : List Record) ∧
          r.cargo = "Data Scientist") ∧
        (∀ w : List Record, df_ds w = [] → media_pais w = none) ∧
        ∃ l, media_pais [rA] = some l ∧
          (∀ p ∈ l, p.1 ∈ (df_ds [rA]).map Record.residencia_iso3 ∧
            p.2 = salario_medio (([rA] : List Record).filter fun r =>
              r.cargo == "Data Scientist" && r.residencia_iso3 == p.1)) ∧
          (∀ r ∈ df_ds [rA], ∃ p ∈ l, p.1 = r.residencia_iso3)) :=
  ⟨by decide, media_pais_spec [rA] (by decide)⟩
